import Mathlib

/-!
Shallow embedding of `src/bank_system.py` (a small CLI banking ledger):
the `Account` ledger (deposit / withdraw / statement, with a per-operation
amount cap and a daily withdrawal count cap), the `Bank` repository
(users, authentication, account creation) and the JSON persistence shape
(`Bank.save` / `Bank.load`).

Modelling conventions:
* Python `float` money amounts are modelled as `ℚ`.
* `datetime` values are modelled abstractly as a calendar-date ordinal plus a
  time-of-day ordinal (`DateTime`); `datetime.isoformat`/`fromisoformat` are
  modelled as a decimal rendering of the two components separated by `'T'`,
  which keeps the textual round-trip property Python guarantees.
* Python `dict`s (insertion-ordered, unique keys) are modelled as ordered
  association lists; `d[k] = v` is `dictInsert` (overwrite in place if the key
  exists, append otherwise).
* `raise` is modelled by returning the error; methods that mutate `self`
  return the (possibly unchanged) new state explicitly.
-/

namespace BankSys

/-- Abstraction of Python `datetime`: a calendar date (as an ordinal day
number) plus a time-of-day ordinal.  `date` is what `.date()` extracts. -/
structure DateTime where
  date : Nat
  time : Nat
deriving DecidableEq

/-- The decimal digit character for `d < 10`, as Python `str` renders it. -/
def digitChar (d : Nat) : Char := Char.ofNat (48 + d)

/-- Little-endian decimal digits of `n`, with explicit fuel (`fuel ≥ n`
suffices). -/
def toDecDigits : Nat → Nat → List Nat
  | 0, _ => []
  | fuel + 1, n => if n = 0 then [] else n % 10 :: toDecDigits fuel (n / 10)

/-- Value of a little-endian decimal digit list. -/
def ofDecDigits : List Nat → Nat
  | [] => 0
  | d :: ds => d + 10 * ofDecDigits ds

/-- Model of Python `str(n)` on a natural number: standard decimal notation,
most significant digit first. -/
def natToString (n : Nat) : String :=
  if n = 0 then "0" else ((toDecDigits n n).map digitChar).reverse.asString

/-- Numeric value of a digit character. -/
def digitVal (c : Char) : Nat := c.toNat - 48

/-- Parse a big-endian digit character list back to a number. -/
def parseChars (cs : List Char) : Nat :=
  ofDecDigits (cs.map digitVal).reverse

/-- Parse a decimal string back to a number (inverse of `natToString`). -/
def decStringToNat (s : String) : Nat :=
  parseChars s.data

/-- Model of `datetime.isoformat()`: the date part and the time part rendered
in decimal, separated by `'T'` as in ISO-8601. -/
def isoformat (d : DateTime) : String :=
  natToString d.date ++ "T" ++ natToString d.time

/-- Split a character list at the first `'T'`. -/
def splitOnT : List Char → List Char × List Char
  | [] => ([], [])
  | c :: cs =>
    if c = 'T' then ([], cs)
    else
      let p := splitOnT cs
      (c :: p.1, p.2)

/-- Model of `datetime.fromisoformat`: parse the date and time components back
from the textual form. -/
def fromisoformat (s : String) : DateTime :=
  let p := splitOnT s.data
  ⟨parseChars p.1, parseChars p.2⟩

/-- Error taxonomy of the spec (§7); the Python code raises `ValueError` /
`PermissionError` with distinct messages at exactly these points. -/
inductive BankError where
  | invalidAmount
  | insufficientFunds
  | perOperationLimitExceeded
  | dailyLimitExceeded
  | duplicateUser
  | unknownUser
  | accountNotFound
  | authenticationFailed
deriving DecidableEq

/-- `Transaction` dataclass: kind is the string `"DEPOSITO"` or `"SAQUE"`,
amount is signed (withdrawals negative), timestamp assigned at creation. -/
structure Transaction where
  kind : String
  amount : ℚ
  timestamp : DateTime
  note : String
deriving DecidableEq

/-- `Account` dataclass with its Python default field values. -/
structure Account where
  number : String
  agency : String := "0001"
  owner_cpf : String := ""
  balance : ℚ := 0
  transactions : List Transaction := []
  daily_withdraw_limit : Nat := 3
  per_withdraw_limit_value : ℚ := 500
deriving DecidableEq

/-- `Account.deposit`: `raise` on non-positive amount (state unchanged),
otherwise add to the balance and append a `"DEPOSITO"` transaction stamped
`now`.  The first component is the raised error, if any; the second is the
state of the account when control returns to the caller. -/
def Account.deposit (a : Account) (now : DateTime) (amount : ℚ) (note : String) :
    Option BankError × Account :=
  if amount ≤ 0 then (some .invalidAmount, a)
  else (none, { a with balance := a.balance + amount,
                       transactions := a.transactions ++ [⟨"DEPOSITO", amount, now, note⟩] })

/-- `Account.withdrawals_today`: count of `"SAQUE"` transactions whose
timestamp's date equals `today` (the wall-clock date at call time, passed
here as a parameter). -/
def Account.withdrawals_today (a : Account) (today : Nat) : Nat :=
  a.transactions.countP (fun t => t.kind == "SAQUE" && t.timestamp.date == today)

/-- `Account.withdraw`: the four precondition checks in source order
(`amount <= 0`, `amount > balance`, `amount > per_withdraw_limit_value`,
`withdrawals_today() >= daily_withdraw_limit`), each raising before any
mutation; on success subtract from the balance and append a `"SAQUE"`
transaction with the negated amount. -/
def Account.withdraw (a : Account) (now : DateTime) (amount : ℚ) (note : String) :
    Option BankError × Account :=
  if amount ≤ 0 then (some .invalidAmount, a)
  else if a.balance < amount then (some .insufficientFunds, a)
  else if a.per_withdraw_limit_value < amount then (some .perOperationLimitExceeded, a)
  else if a.daily_withdraw_limit ≤ a.withdrawals_today now.date then
    (some .dailyLimitExceeded, a)
  else (none, { a with balance := a.balance - amount,
                       transactions := a.transactions ++ [⟨"SAQUE", -amount, now, note⟩] })

/-- `Account.statement`: filter by the optional start date, then by the
optional end date (both inclusive, on the timestamp's date), and sum the
amounts of the filtered entries. -/
def Account.statement (a : Account) (start stop : Option Nat) :
    List Transaction × ℚ :=
  let txs :=
    match start with
    | some s => a.transactions.filter (fun t => decide (s ≤ t.timestamp.date))
    | none => a.transactions
  let txs2 :=
    match stop with
    | some e => txs.filter (fun t => decide (t.timestamp.date ≤ e))
    | none => txs
  (txs2, (txs2.map Transaction.amount).sum)

/-- `User` dataclass. -/
structure User where
  cpf : String
  name : String
  password_hash : String
  accounts : List String := []
deriving DecidableEq

/-- `hash_password` wraps `hashlib.sha256(pwd.encode()).hexdigest()`, a
standard-library one-way function whose internals are outside this
repository; the code only uses that it is a deterministic string-valued
function compared for equality, so it is modelled as an abstract
deterministic tagging function. -/
def hash_password (pwd : String) : String := "sha256$" ++ pwd

/-- Python `dict` assignment `d[k] = v`: overwrite in place when the key is
present (keys are unique in a dict, insertion order kept), append otherwise. -/
def dictInsert {β : Type} (k : String) (v : β) (l : List (String × β)) :
    List (String × β) :=
  if (l.lookup k).isSome then l.map (fun p => if p.1 = k then (k, v) else p)
  else l ++ [(k, v)]

/-- `Bank`: insertion-ordered mappings CPF → User and number → Account. -/
structure Bank where
  users : List (String × User) := []
  accounts : List (String × Account) := []
deriving DecidableEq

/-- `Bank.create_user`: `raise` `duplicateUser` when the CPF is already a key,
otherwise store the new user with the hashed password. -/
def Bank.create_user (b : Bank) (cpf name password : String) :
    Option BankError × Bank :=
  if (b.users.lookup cpf).isSome then (some .duplicateUser, b)
  else (none, { b with users := dictInsert cpf ⟨cpf, name, hash_password password, []⟩ b.users })

/-- `Bank.auth`: a single guard `not u or u.password_hash != hash_password(password)`
raises one and the same error in both cases; on success return the stored user. -/
def Bank.auth (b : Bank) (cpf password : String) : Except BankError User :=
  match b.users.lookup cpf with
  | none => .error .authenticationFailed
  | some u =>
    if u.password_hash ≠ hash_password password then .error .authenticationFailed
    else .ok u

/-- `Bank.create_account`: `raise` `unknownUser` when the owner CPF is not a
key; otherwise allocate `str(100000 + len(accounts) + 1)`, store the new
account under that number and append the number to the owner's list (an
in-place mutation of the stored `User`). -/
def Bank.create_account (b : Bank) (owner_cpf : String) :
    Except BankError (Account × Bank) :=
  match b.users.lookup owner_cpf with
  | none => .error .unknownUser
  | some _ =>
    let number := natToString (100000 + b.accounts.length + 1)
    let acc : Account := { number := number, owner_cpf := owner_cpf }
    .ok (acc,
      { users := b.users.map (fun p =>
          if p.1 = owner_cpf then (p.1, { p.2 with accounts := p.2.accounts ++ [number] })
          else p),
        accounts := dictInsert number acc b.accounts })

/-- `Bank.get_account`: `raise` `accountNotFound` on an unknown number. -/
def Bank.get_account (b : Bank) (number : String) : Except BankError Account :=
  match b.accounts.lookup number with
  | none => .error .accountNotFound
  | some a => .ok a

/-- Serialized transaction: timestamp in textual (ISO) form; `note` optional
in the document (`t.get("note", "")` on load). -/
structure TxDoc where
  kind : String
  amount : ℚ
  timestamp : String
  note : Option String
deriving DecidableEq

/-- Serialized account; the two limit fields are optional in the document
(`ad.get(..., default)` on load). -/
structure AccountDoc where
  number : String
  agency : String
  owner_cpf : String
  balance : ℚ
  transactions : List TxDoc
  daily_withdraw_limit : Option Nat
  per_withdraw_limit_value : Option ℚ
deriving DecidableEq

/-- Serialized user. -/
structure UserDoc where
  cpf : String
  name : String
  password_hash : String
  accounts : List String
deriving DecidableEq

/-- The persisted document: the two keyed collections, in insertion order. -/
structure BankDoc where
  users : List (String × UserDoc)
  accounts : List (String × AccountDoc)
deriving DecidableEq

/-- The transaction dictionary written by `Bank.save`. -/
def serializeTransaction (t : Transaction) : TxDoc :=
  ⟨t.kind, t.amount, isoformat t.timestamp, some t.note⟩

/-- The account dictionary written by `Bank.save` (`serialize_account`). -/
def serializeAccount (a : Account) : AccountDoc :=
  ⟨a.number, a.agency, a.owner_cpf, a.balance, a.transactions.map serializeTransaction,
   some a.daily_withdraw_limit, some a.per_withdraw_limit_value⟩

/-- `Bank.save`, modelled as producing the document (the JSON file-writing
mechanics are out of scope, per spec §6). -/
def Bank.save (b : Bank) : BankDoc :=
  ⟨b.users.map (fun p => (p.1, ⟨p.2.cpf, p.2.name, p.2.password_hash, p.2.accounts⟩)),
   b.accounts.map (fun p => (p.1, serializeAccount p.2))⟩

/-- Transaction reconstruction in `Bank.load`: timestamp parsed from the
textual form, note defaulted to `""` when absent. -/
def loadTransaction (t : TxDoc) : Transaction :=
  ⟨t.kind, t.amount, fromisoformat t.timestamp, t.note.getD ""⟩

/-- Account reconstruction in `Bank.load`: limit fields defaulted to `3` and
`500.0` when absent from the document. -/
def loadAccount (ad : AccountDoc) : Account :=
  { number := ad.number, agency := ad.agency, owner_cpf := ad.owner_cpf,
    balance := ad.balance,
    transactions := ad.transactions.map loadTransaction,
    daily_withdraw_limit := ad.daily_withdraw_limit.getD 3,
    per_withdraw_limit_value := ad.per_withdraw_limit_value.getD 500 }

/-- `Bank.load`, modelled as consuming the document: rebuild both mappings
entry by entry, in document order (`User(**ud)` for users). -/
def Bank.load (d : BankDoc) : Bank :=
  ⟨d.users.map (fun p => (p.1, ⟨p.2.cpf, p.2.name, p.2.password_hash, p.2.accounts⟩)),
   d.accounts.map (fun p => (p.1, loadAccount p.2))⟩

/-- One ledger call: a deposit or a withdrawal at some instant. -/
inductive AccountOp where
  | dep (now : DateTime) (amount : ℚ) (note : String)
  | wd (now : DateTime) (amount : ℚ) (note : String)
deriving DecidableEq

/-- Run one ledger call; the account state afterwards is the second
component whether the call succeeded or raised. -/
def applyOp (a : Account) : AccountOp → Option BankError × Account
  | .dep now amount note => a.deposit now amount note
  | .wd now amount note => a.withdraw now amount note

/-- Run a sequence of ledger calls, keeping the state left by each
(successful or failed) call. -/
def runOps (a : Account) (ops : List AccountOp) : Account :=
  ops.foldl (fun s op => (applyOp s op).2) a

/-- The cached-balance invariant of spec §3. -/
def balanceInv (a : Account) : Prop :=
  a.balance = (a.transactions.map Transaction.amount).sum

/-- Run a sequence of withdrawals all stamped `now`; `some` only when every
one of them succeeds. -/
def withdrawMany (a : Account) (now : DateTime) : List ℚ → Option Account
  | [] => some a
  | amt :: rest =>
    match a.withdraw now amt "" with
    | (none, a1) => withdrawMany a1 now rest
    | (some _, _) => none

/-- The date-window predicate of `Account.statement`: both bounds inclusive,
an absent bound unrestricted. -/
def inWindow (start stop : Option Nat) (t : Transaction) : Bool :=
  (match start with
   | some s => decide (s ≤ t.timestamp.date)
   | none => true)
  && (match stop with
      | some e => decide (t.timestamp.date ≤ e)
      | none => true)

/-- Reachable shape of the account-number keys: creation `i` (0-based)
allocated `str(100000 + i + 1)`, so the keys are exactly that sequence. -/
def accountKeysCanonical (b : Bank) : Prop :=
  b.accounts.map Prod.fst =
    (List.range b.accounts.length).map (fun i => natToString (100000 + i + 1))

/-- Concrete account used to evaluate the theorems: fresh account after a
deposit of 500 on day 5. -/
def sampleAcc : Account :=
  { number := "100001", owner_cpf := "111", balance := 500,
    transactions := [⟨"DEPOSITO", 500, ⟨5, 0⟩, ""⟩] }

/-- `sampleAcc` after three withdrawals of 50 on day 5. -/
def sampleAccAfter : Account :=
  { number := "100001", owner_cpf := "111", balance := 350,
    transactions := [⟨"DEPOSITO", 500, ⟨5, 0⟩, ""⟩,
                     ⟨"SAQUE", -50, ⟨5, 1⟩, ""⟩,
                     ⟨"SAQUE", -50, ⟨5, 1⟩, ""⟩,
                     ⟨"SAQUE", -50, ⟨5, 1⟩, ""⟩] }

/-- Concrete registered user used to evaluate the theorems. -/
def sampleUser : User := ⟨"111", "Mari", hash_password "abc123", []⟩

/-- Concrete one-user bank used to evaluate the theorems. -/
def sampleBank : Bank := { users := [("111", sampleUser)], accounts := [] }

/-! ## Decimal / timestamp codec lemmas -/

theorem data_asString (l : List Char) : (l.asString).data = l := rfl

theorem ofDecDigits_toDecDigits : ∀ fuel n, n ≤ fuel → ofDecDigits (toDecDigits fuel n) = n := by
  intro fuel
  induction fuel with
  | zero => intro n h; interval_cases n; rfl
  | succ fuel ih =>
    intro n h
    by_cases hn : n = 0
    · subst hn; simp [toDecDigits, ofDecDigits]
    · have hlt : n / 10 < n := Nat.div_lt_self (Nat.pos_of_ne_zero hn) (by omega)
      have h10 : n / 10 ≤ fuel := by omega
      simp only [toDecDigits, hn, if_false, ofDecDigits]
      rw [ih _ h10]
      omega

theorem toDecDigits_lt : ∀ fuel n d, d ∈ toDecDigits fuel n → d < 10 := by
  intro fuel
  induction fuel with
  | zero => intro n d h; simp [toDecDigits] at h
  | succ fuel ih =>
    intro n d h
    by_cases hn : n = 0
    · simp [toDecDigits, hn] at h
    · simp only [toDecDigits, hn, if_false, List.mem_cons] at h
      rcases h with h | h
      · subst h; exact Nat.mod_lt _ (by omega)
      · exact ih _ _ h

theorem digitVal_digitChar {d : Nat} (h : d < 10) : digitVal (digitChar d) = d := by
  interval_cases d <;> decide

theorem digitChar_ne_T {d : Nat} (h : d < 10) : digitChar d ≠ 'T' := by
  interval_cases d <;> decide

theorem map_digitVal_map_digitChar :
    ∀ l : List Nat, (∀ d ∈ l, d < 10) → (l.map digitChar).map digitVal = l := by
  intro l hl
  induction l with
  | nil => rfl
  | cons d ds ih =>
    simp only [List.map_cons, List.cons.injEq]
    exact ⟨digitVal_digitChar (hl d (by simp)), ih (fun x hx => hl x (by simp [hx]))⟩

theorem decStringToNat_natToString (n : Nat) : decStringToNat (natToString n) = n := by
  by_cases hn : n = 0
  · subst hn; rfl
  · unfold natToString decStringToNat parseChars
    simp only [hn, if_false, data_asString]
    rw [List.map_reverse, List.reverse_reverse,
      map_digitVal_map_digitChar _ (fun d hd => toDecDigits_lt n n d hd)]
    exact ofDecDigits_toDecDigits n n le_rfl

theorem natToString_injective : Function.Injective natToString := by
  intro m n h
  have h2 := congrArg decStringToNat h
  rwa [decStringToNat_natToString, decStringToNat_natToString] at h2

theorem ne_T_of_mem_natToString (n : Nat) : ∀ c ∈ (natToString n).data, c ≠ 'T' := by
  by_cases hn : n = 0
  · subst hn
    intro c hc
    rw [show (natToString 0).data = ['0'] from rfl] at hc
    simp only [List.mem_singleton] at hc
    subst hc; decide
  · unfold natToString
    simp only [hn, if_false, data_asString]
    intro c hc
    have hc' : c ∈ (toDecDigits n n).map digitChar := List.mem_reverse.mp hc
    obtain ⟨d, hd, rfl⟩ := List.mem_map.mp hc'
    exact digitChar_ne_T (toDecDigits_lt _ _ _ hd)

theorem splitOnT_append (xs ys : List Char) (h : ∀ c ∈ xs, c ≠ 'T') :
    splitOnT (xs ++ 'T' :: ys) = (xs, ys) := by
  induction xs with
  | nil => simp [splitOnT]
  | cons c cs ih =>
    have hc : c ≠ 'T' := h c (by simp)
    simp only [List.cons_append, splitOnT, hc, if_false, List.append_eq,
      ih (fun x hx => h x (by simp [hx]))]

theorem fromisoformat_isoformat (d : DateTime) : fromisoformat (isoformat d) = d := by
  unfold fromisoformat isoformat
  have hdata : (natToString d.date ++ "T" ++ natToString d.time).data
      = (natToString d.date).data ++ 'T' :: (natToString d.time).data := by
    simp [String.data_append]
  rw [hdata, splitOnT_append _ _ (ne_T_of_mem_natToString d.date)]
  have h1 := decStringToNat_natToString d.date
  have h2 := decStringToNat_natToString d.time
  unfold decStringToNat at h1 h2
  cases d with
  | mk dd tt => simpa using And.intro h1 h2

/-! ## Ledger helper lemmas -/

theorem applyOp_balanceInv (a : Account) (op : AccountOp) (h : balanceInv a) :
    balanceInv (applyOp a op).2 := by
  cases op with
  | dep now amount note =>
    simp only [applyOp]
    unfold Account.deposit
    split_ifs
    · exact h
    · unfold balanceInv at *
      simp only [List.map_append, List.sum_append, List.map_cons, List.map_nil,
        List.sum_cons, List.sum_nil, add_zero]
      rw [h]
  | wd now amount note =>
    simp only [applyOp]
    unfold Account.withdraw
    split_ifs
    · exact h
    · exact h
    · exact h
    · exact h
    · unfold balanceInv at *
      simp only [List.map_append, List.sum_append, List.map_cons, List.map_nil,
        List.sum_cons, List.sum_nil, add_zero]
      rw [h]
      ring

theorem withdraw_frame (a : Account) (now : DateTime) (amount : ℚ) (note : String) :
    ((a.withdraw now amount note).2).daily_withdraw_limit = a.daily_withdraw_limit
    ∧ ((a.withdraw now amount note).2).per_withdraw_limit_value = a.per_withdraw_limit_value := by
  unfold Account.withdraw
  split_ifs <;> exact ⟨rfl, rfl⟩

theorem withdraw_daily_fail (a : Account) (now : DateTime) (amount : ℚ) (note : String)
    (h1 : 0 < amount) (h2 : amount ≤ a.balance) (h3 : amount ≤ a.per_withdraw_limit_value)
    (h4 : a.daily_withdraw_limit ≤ a.withdrawals_today now.date) :
    a.withdraw now amount note = (some .dailyLimitExceeded, a) := by
  unfold Account.withdraw
  rw [if_neg (not_le.mpr h1), if_neg (not_lt.mpr h2), if_neg (not_lt.mpr h3), if_pos h4]

theorem withdraw_ok_iff (a : Account) (now : DateTime) (amount : ℚ) (note : String) :
    (a.withdraw now amount note).1 = none ↔
      0 < amount ∧ amount ≤ a.balance ∧ amount ≤ a.per_withdraw_limit_value ∧
        a.withdrawals_today now.date < a.daily_withdraw_limit := by
  unfold Account.withdraw
  split_ifs with h1 h2 h3 h4
  · exact iff_of_false (by simp) (fun hh => absurd hh.1 (not_lt.mpr h1))
  · exact iff_of_false (by simp) (fun hh => absurd hh.2.1 (not_le.mpr h2))
  · exact iff_of_false (by simp) (fun hh => absurd hh.2.2.1 (not_le.mpr h3))
  · exact iff_of_false (by simp) (fun hh => absurd hh.2.2.2 (not_lt.mpr h4))
  · exact iff_of_true rfl ⟨not_le.mp h1, not_lt.mp h2, not_lt.mp h3, not_le.mp h4⟩

theorem withdraw_ok_result (a : Account) (now : DateTime) (amount : ℚ) (note : String)
    (h : (a.withdraw now amount note).1 = none) :
    (a.withdraw now amount note).2 =
      { a with balance := a.balance - amount,
               transactions := a.transactions ++ [⟨"SAQUE", -amount, now, note⟩] } := by
  unfold Account.withdraw at h ⊢
  split_ifs at h ⊢
  · rfl

theorem withdraw_ok_count (a : Account) (now : DateTime) (amount : ℚ) (note : String)
    (h : (a.withdraw now amount note).1 = none) (today : Nat) :
    ((a.withdraw now amount note).2).withdrawals_today today =
      a.withdrawals_today today + (if now.date = today then 1 else 0) := by
  rw [withdraw_ok_result a now amount note h]
  unfold Account.withdrawals_today
  simp only [List.countP_append, List.countP_cons, List.countP_nil]
  by_cases hd : now.date = today <;> simp [hd]

theorem withdraw_dates_le (a : Account) (now : DateTime) (amount : ℚ) (note : String) (d : Nat)
    (hnow : now.date ≤ d) (h : ∀ tx ∈ a.transactions, tx.timestamp.date ≤ d) :
    ∀ tx ∈ ((a.withdraw now amount note).2).transactions, tx.timestamp.date ≤ d := by
  unfold Account.withdraw
  split_ifs <;> intro tx htx
  · exact h tx htx
  · exact h tx htx
  · exact h tx htx
  · exact h tx htx
  · simp only [List.mem_append, List.mem_singleton] at htx
    rcases htx with htx | rfl
    · exact h tx htx
    · exact hnow

theorem withdrawMany_ok (now : DateTime) :
    ∀ (amounts : List ℚ) (a a' : Account), withdrawMany a now amounts = some a' →
      a'.daily_withdraw_limit = a.daily_withdraw_limit
      ∧ a'.per_withdraw_limit_value = a.per_withdraw_limit_value
      ∧ a'.withdrawals_today now.date = a.withdrawals_today now.date + amounts.length
      ∧ ((∀ tx ∈ a.transactions, tx.timestamp.date ≤ now.date) →
          ∀ tx ∈ a'.transactions, tx.timestamp.date ≤ now.date) := by
  intro amounts
  induction amounts with
  | nil =>
    intro a a' h
    cases h
    exact ⟨rfl, rfl, by simp [withdrawMany], fun hb => hb⟩
  | cons amt rest ih =>
    intro a a' h
    unfold withdrawMany at h
    rcases hw : a.withdraw now amt "" with ⟨e, a1⟩
    rw [hw] at h
    cases e with
    | some e0 => exact absurd h (by simp)
    | none =>
      obtain ⟨hl, hp, hc, hd⟩ := ih a1 a' h
      have hok : (a.withdraw now amt "").1 = none := by rw [hw]
      have h2 : (a.withdraw now amt "").2 = a1 := by rw [hw]
      have hfr := withdraw_frame a now amt ""
      have hcount := withdraw_ok_count a now amt "" hok now.date
      have hdates := fun hb => withdraw_dates_le a now amt "" now.date le_rfl hb
      rw [h2] at hfr hcount hdates
      refine ⟨?_, ?_, ?_, ?_⟩
      · rw [hl, hfr.1]
      · rw [hp, hfr.2]
      · rw [hc, hcount]
        have hone : (if now.date = now.date then (1 : Nat) else 0) = 1 := if_pos rfl
        rw [hone, List.length_cons]
        omega
      · intro hb
        exact hd (hdates hb)

/-! ## Claim theorems for the ledger -/

/-- C1: for every account satisfying the cached-balance invariant, after any
sequence of deposit and withdraw calls (each successful call mutates, each
failed call leaves the state unchanged) the cached `balance` still equals the
sum of the amounts of all transactions in the log; since the sequence is
arbitrary, this holds after each call. -/
theorem balance_eq_sum_transactions (a : Account) (ops : List AccountOp)
    (h : balanceInv a) : balanceInv (runOps a ops) := by
  induction ops generalizing a with
  | nil => exact h
  | cons op ops ih => exact ih (applyOp a op).2 (applyOp_balanceInv a op h)

theorem balance_eq_sum_transactions_witness :
    balanceInv sampleAcc ∧
      balanceInv (runOps sampleAcc [.dep ⟨6, 0⟩ 100 "x", .wd ⟨6, 1⟩ 30 "y"]) := by
  constructor
  · with_unfolding_all rfl
  · exact balance_eq_sum_transactions sampleAcc [.dep ⟨6, 0⟩ 100 "x", .wd ⟨6, 1⟩ 30 "y"]
      (by with_unfolding_all rfl)

/-- C2: `withdraw` checks, in source order: `amount <= 0` (invalidAmount),
`amount > balance` (insufficientFunds), `amount > per_withdraw_limit_value`
(perOperationLimitExceeded), `withdrawals_today() >= daily_withdraw_limit`
(dailyLimitExceeded); the first violated condition is the one reported, and
every failure leaves the balance and the transaction log unchanged. -/
theorem withdraw_error_order (a : Account) (now : DateTime) (amount : ℚ) (note : String) :
    (amount ≤ 0 → a.withdraw now amount note = (some .invalidAmount, a))
    ∧ (0 < amount → a.balance < amount →
        a.withdraw now amount note = (some .insufficientFunds, a))
    ∧ (0 < amount → amount ≤ a.balance → a.per_withdraw_limit_value < amount →
        a.withdraw now amount note = (some .perOperationLimitExceeded, a))
    ∧ (0 < amount → amount ≤ a.balance → amount ≤ a.per_withdraw_limit_value →
        a.daily_withdraw_limit ≤ a.withdrawals_today now.date →
        a.withdraw now amount note = (some .dailyLimitExceeded, a))
    ∧ (∀ e, (a.withdraw now amount note).1 = some e → (a.withdraw now amount note).2 = a) := by
  refine ⟨fun h1 => ?_, fun h1 h2 => ?_, fun h1 h2 h3 => ?_, fun h1 h2 h3 h4 => ?_, fun e => ?_⟩
  · unfold Account.withdraw; rw [if_pos h1]
  · unfold Account.withdraw; rw [if_neg (not_le.mpr h1), if_pos h2]
  · unfold Account.withdraw
    rw [if_neg (not_le.mpr h1), if_neg (not_lt.mpr h2), if_pos h3]
  · exact withdraw_daily_fail a now amount note h1 h2 h3 h4
  · unfold Account.withdraw; split_ifs <;> simp

theorem withdraw_error_order_witness :
    sampleAcc.withdraw ⟨6, 0⟩ 600 "" = (some .insufficientFunds, sampleAcc)
    ∧ sampleAcc.withdraw ⟨6, 0⟩ 0 "" = (some .invalidAmount, sampleAcc) := by
  constructor
  · exact (withdraw_error_order sampleAcc ⟨6, 0⟩ 600 "").2.1 (by norm_num) (by decide)
  · exact (withdraw_error_order sampleAcc ⟨6, 0⟩ 0 "").1 le_rfl

/-- C3: `deposit` fails with invalidAmount and changes nothing when
`amount <= 0`; when `amount > 0` it both increments the balance by `amount`
and appends exactly one `"DEPOSITO"` transaction stamped with the current
timestamp — the two state changes happen together or not at all. -/
theorem deposit_invalid_or_apply (a : Account) (now : DateTime) (amount : ℚ) (note : String) :
    (amount ≤ 0 → a.deposit now amount note = (some .invalidAmount, a))
    ∧ (0 < amount → a.deposit now amount note =
        (none, { a with balance := a.balance + amount,
                        transactions := a.transactions ++ [⟨"DEPOSITO", amount, now, note⟩] })) := by
  unfold Account.deposit
  exact ⟨fun h => if_pos h, fun h => if_neg (not_le.mpr h)⟩

theorem deposit_invalid_or_apply_witness :
    sampleAcc.deposit ⟨6, 0⟩ (-5) "" = (some .invalidAmount, sampleAcc)
    ∧ sampleAcc.deposit ⟨6, 0⟩ 100 "x" =
        (none,
          { number := "100001", owner_cpf := "111", balance := 600,
            transactions := [⟨"DEPOSITO", 500, ⟨5, 0⟩, ""⟩, ⟨"DEPOSITO", 100, ⟨6, 0⟩, "x"⟩] }) := by
  constructor
  · exact (deposit_invalid_or_apply sampleAcc ⟨6, 0⟩ (-5) "").1 (by norm_num)
  · rw [(deposit_invalid_or_apply sampleAcc ⟨6, 0⟩ 100 "x").2 (by norm_num)]
    with_unfolding_all rfl

/-- C9: every deposit or withdraw call, successful or failed, leaves the
account's `number`, `agency`, `owner_cpf`, `daily_withdraw_limit` and
`per_withdraw_limit_value` unchanged, and leaves the existing transaction log
as an unmodified prefix of the new log (it only ever appends). -/
theorem deposit_withdraw_frame (a : Account) (op : AccountOp) :
    ((applyOp a op).2).number = a.number
    ∧ ((applyOp a op).2).agency = a.agency
    ∧ ((applyOp a op).2).owner_cpf = a.owner_cpf
    ∧ ((applyOp a op).2).daily_withdraw_limit = a.daily_withdraw_limit
    ∧ ((applyOp a op).2).per_withdraw_limit_value = a.per_withdraw_limit_value
    ∧ ∃ ts, ((applyOp a op).2).transactions = a.transactions ++ ts := by
  cases op with
  | dep now amount note =>
    simp only [applyOp]
    unfold Account.deposit
    split_ifs
    · exact ⟨rfl, rfl, rfl, rfl, rfl, [], (List.append_nil _).symm⟩
    · exact ⟨rfl, rfl, rfl, rfl, rfl, [⟨"DEPOSITO", amount, now, note⟩], rfl⟩
  | wd now amount note =>
    simp only [applyOp]
    unfold Account.withdraw
    split_ifs
    · exact ⟨rfl, rfl, rfl, rfl, rfl, [], (List.append_nil _).symm⟩
    · exact ⟨rfl, rfl, rfl, rfl, rfl, [], (List.append_nil _).symm⟩
    · exact ⟨rfl, rfl, rfl, rfl, rfl, [], (List.append_nil _).symm⟩
    · exact ⟨rfl, rfl, rfl, rfl, rfl, [], (List.append_nil _).symm⟩
    · exact ⟨rfl, rfl, rfl, rfl, rfl, [⟨"SAQUE", -amount, now, note⟩], rfl⟩

/-- C4: after `daily_withdraw_limit` many successful withdrawals all stamped
with calendar date `d` (starting from an account with a positive limit and no
future-dated transactions), one more withdrawal attempt on date `d` with an
otherwise valid amount fails with dailyLimitExceeded, while the same attempt
on the next calendar date `d + 1` succeeds; and `withdrawals_today` counts
exactly the `"SAQUE"` transactions whose timestamp's date equals the given
current date. -/
theorem daily_limit_boundary (a a' : Account) (d t t2 t3 : Nat) (amounts : List ℚ)
    (amount : ℚ) (note : String)
    (hrun : withdrawMany a ⟨d, t⟩ amounts = some a')
    (hlen : amounts.length = a.daily_withdraw_limit)
    (hpos : 0 < a.daily_withdraw_limit)
    (hpast : ∀ tx ∈ a.transactions, tx.timestamp.date ≤ d)
    (hamt : 0 < amount) (hbal : amount ≤ a'.balance)
    (hper : amount ≤ a'.per_withdraw_limit_value) :
    a'.withdraw ⟨d, t2⟩ amount note = (some .dailyLimitExceeded, a')
    ∧ (a'.withdraw ⟨d + 1, t3⟩ amount note).1 = none
    ∧ ∀ acc : Account, ∀ today : Nat,
        acc.withdrawals_today today =
          (acc.transactions.filter
            (fun tx => tx.kind == "SAQUE" && tx.timestamp.date == today)).length := by
  obtain ⟨hl, hp, hc, hd⟩ := withdrawMany_ok ⟨d, t⟩ amounts a a' hrun
  have hl' : a'.daily_withdraw_limit = a.daily_withdraw_limit := hl
  have hc' : a'.withdrawals_today d = a.withdrawals_today d + amounts.length := hc
  refine ⟨?_, ?_, ?_⟩
  · apply withdraw_daily_fail a' ⟨d, t2⟩ amount note hamt hbal hper
    show a'.daily_withdraw_limit ≤ a'.withdrawals_today d
    omega
  · rw [withdraw_ok_iff]
    refine ⟨hamt, hbal, hper, ?_⟩
    show a'.withdrawals_today (d + 1) < a'.daily_withdraw_limit
    have hzero : a'.withdrawals_today (d + 1) = 0 := by
      unfold Account.withdrawals_today
      rw [List.countP_eq_zero]
      intro tx htx heq
      simp only [Bool.and_eq_true, beq_iff_eq] at heq
      have hle : tx.timestamp.date ≤ d := hd hpast tx htx
      omega
    omega
  · intro acc today
    unfold Account.withdrawals_today
    exact List.countP_eq_length_filter _ _

theorem daily_limit_boundary_witness :
    withdrawMany sampleAcc ⟨5, 1⟩ [50, 50, 50] = some sampleAccAfter
    ∧ sampleAccAfter.withdraw ⟨5, 2⟩ 50 "" = (some .dailyLimitExceeded, sampleAccAfter)
    ∧ (sampleAccAfter.withdraw ⟨6, 0⟩ 50 "").1 = none := by
  have h := daily_limit_boundary sampleAcc sampleAccAfter 5 1 2 0 [50, 50, 50] 50 ""
    (by with_unfolding_all rfl) (by decide) (by decide) (by decide)
    (by decide) (by decide) (by decide)
  exact ⟨by with_unfolding_all rfl, h.1, h.2.1⟩

/-- C8: `statement` is a pure query returning exactly the transactions whose
date lies in the inclusive window given by the optional bounds (an absent
bound is unrestricted), in log order, paired with the sum of the amounts of
the filtered entries only. -/
theorem statement_spec (a : Account) (start stop : Option Nat) :
    a.statement start stop =
      (a.transactions.filter (inWindow start stop),
       ((a.transactions.filter (inWindow start stop)).map Transaction.amount).sum) := by
  unfold Account.statement inWindow
  cases start with
  | none =>
    cases stop with
    | none => simp
    | some e => simp
  | some s =>
    cases stop with
    | none => simp
    | some e =>
      have hcomm : a.transactions.filter
            (fun t => decide (t.timestamp.date ≤ e) && decide (s ≤ t.timestamp.date))
          = a.transactions.filter
            (fun t => decide (s ≤ t.timestamp.date) && decide (t.timestamp.date ≤ e)) :=
        List.filter_congr (fun t _ => Bool.and_comm _ _)
      simp only [List.filter_filter]
      rw [hcomm]

/-! ## Repository helper lemmas -/

theorem lookup_eq_none_of_not_mem {β : Type} (k : String) (l : List (String × β))
    (h : k ∉ l.map Prod.fst) : l.lookup k = none := by
  rw [List.lookup_eq_none_iff]
  intro p hp
  simp only [bne_iff_ne, ne_eq]
  intro hkp
  exact h (hkp ▸ List.mem_map_of_mem Prod.fst hp)

theorem lookup_map_addNumber (cpf number : String) (l : List (String × User)) :
    (l.map (fun p =>
        if p.1 = cpf then (p.1, { p.2 with accounts := p.2.accounts ++ [number] })
        else p)).lookup cpf
      = (l.lookup cpf).map (fun u => { u with accounts := u.accounts ++ [number] }) := by
  induction l with
  | nil => rfl
  | cons hd tl ih =>
    rcases hd with ⟨k, v⟩
    by_cases hk : k = cpf
    · subst hk
      simp [List.lookup_cons, ih]
    · have hbe : (cpf == k) = false := beq_eq_false_iff_ne.mpr (Ne.symm hk)
      simp [List.lookup_cons, hk, hbe, ih]

theorem create_account_ok (b : Bank) (cpf : String) (u : User)
    (h : b.users.lookup cpf = some u)
    (hnone : b.accounts.lookup (natToString (100000 + b.accounts.length + 1)) = none) :
    b.create_account cpf =
      .ok ({ number := natToString (100000 + b.accounts.length + 1), owner_cpf := cpf },
        ⟨b.users.map (fun p =>
            if p.1 = cpf then
              (p.1, { p.2 with accounts :=
                        p.2.accounts ++ [natToString (100000 + b.accounts.length + 1)] })
            else p),
          b.accounts ++ [(natToString (100000 + b.accounts.length + 1),
            { number := natToString (100000 + b.accounts.length + 1), owner_cpf := cpf })]⟩) := by
  unfold Bank.create_account dictInsert
  rw [h]
  dsimp only
  rw [hnone]
  simp only [Option.isSome_none, Bool.false_eq_true, if_false]

/-! ## Repository claim theorems -/

/-- C7: `auth` fails when the CPF is unknown and also when the stored hash
differs from the hash of the supplied password, reporting the very same
authenticationFailed value in both cases; when the hashes match it returns
the stored user. -/
theorem auth_spec (b : Bank) (cpf password : String) :
    (b.users.lookup cpf = none → b.auth cpf password = .error .authenticationFailed)
    ∧ (∀ u, b.users.lookup cpf = some u → u.password_hash ≠ hash_password password →
        b.auth cpf password = .error .authenticationFailed)
    ∧ (∀ u, b.users.lookup cpf = some u → u.password_hash = hash_password password →
        b.auth cpf password = .ok u) := by
  unfold Bank.auth
  refine ⟨fun h => ?_, fun u h hne => ?_, fun u h he => ?_⟩
  · rw [h]
  · rw [h]
    simp only [ne_eq]
    rw [if_pos hne]
  · rw [h]
    simp only [ne_eq]
    rw [if_neg (not_not_intro he)]

theorem auth_spec_witness :
    sampleBank.auth "999" "abc123" = .error .authenticationFailed
    ∧ sampleBank.auth "111" "wrong" = .error .authenticationFailed := by
  constructor
  · exact (auth_spec sampleBank "999" "abc123").1 (by decide)
  · exact (auth_spec sampleBank "111" "wrong").2.1 sampleUser (by decide) (by decide)

/-- C10: when `create_user` succeeds, an immediate `auth` with the same CPF
and password succeeds and returns exactly the user just created (the password
hash is the same deterministic function on both paths). -/
theorem create_user_then_auth (b : Bank) (cpf name password : String)
    (h : (b.create_user cpf name password).1 = none) :
    ((b.create_user cpf name password).2).auth cpf password =
      .ok ⟨cpf, name, hash_password password, []⟩ := by
  have hnone : b.users.lookup cpf = none := by
    by_cases hs : (b.users.lookup cpf).isSome = true
    · unfold Bank.create_user at h
      rw [if_pos hs] at h
      exact absurd h (by simp)
    · exact Option.not_isSome_iff_eq_none.mp hs
  have hs' : ¬(b.users.lookup cpf).isSome = true := by simp [hnone]
  unfold Bank.create_user
  rw [if_neg hs']
  dsimp only
  unfold Bank.auth dictInsert
  simp only [hnone, Option.isSome_none, Bool.false_eq_true, if_false]
  have hfind : (b.users ++ [(cpf, (⟨cpf, name, hash_password password, []⟩ : User))]).lookup cpf
      = some ⟨cpf, name, hash_password password, []⟩ := by
    rw [List.lookup_append, hnone]
    simp [List.lookup_cons]
  rw [hfind]
  simp

theorem create_user_then_auth_witness :
    ((sampleBank.create_user "222" "Ana" "pw").2).auth "222" "pw" =
      .ok ⟨"222", "Ana", hash_password "pw", []⟩ :=
  create_user_then_auth sampleBank "222" "Ana" "pw" (by decide)

/-- C6: `create_account` fails with unknownUser when the owner CPF is not
registered; otherwise (on any bank whose account keys have the canonical
allocated shape) it allocates `str(100000 + len(accounts) + 1)`, a number not
present among the existing keys and numerically greater than all of them,
stores the new account under that number (preserving the canonical shape),
appends the number to the owner's account list, and returns the new account;
on a fresh bank the first allocated number is `"100001"`. -/
theorem create_account_spec (b : Bank) (cpf : String) (u : User)
    (hcanon : accountKeysCanonical b) :
    (b.users.lookup cpf = none → b.create_account cpf = .error .unknownUser)
    ∧ (b.users.lookup cpf = some u →
        ∃ b' : Bank,
          b.create_account cpf =
            .ok ({ number := natToString (100000 + b.accounts.length + 1),
                   owner_cpf := cpf }, b')
          ∧ natToString (100000 + b.accounts.length + 1) ∉ b.accounts.map Prod.fst
          ∧ (∀ k ∈ b.accounts.map Prod.fst,
              decStringToNat k < 100000 + b.accounts.length + 1)
          ∧ b'.accounts.map Prod.fst
              = b.accounts.map Prod.fst ++ [natToString (100000 + b.accounts.length + 1)]
          ∧ b'.accounts.lookup (natToString (100000 + b.accounts.length + 1))
              = some { number := natToString (100000 + b.accounts.length + 1),
                       owner_cpf := cpf }
          ∧ accountKeysCanonical b'
          ∧ b'.users.lookup cpf
              = some { u with accounts :=
                  u.accounts ++ [natToString (100000 + b.accounts.length + 1)] }
          ∧ (b.accounts = [] → natToString (100000 + b.accounts.length + 1) = "100001")) := by
  have hfresh : natToString (100000 + b.accounts.length + 1) ∉ b.accounts.map Prod.fst := by
    rw [hcanon]
    intro hmem
    obtain ⟨i, hi, heq⟩ := List.mem_map.mp hmem
    have hii : 100000 + i + 1 = 100000 + b.accounts.length + 1 := natToString_injective heq
    have hilt : i < b.accounts.length := List.mem_range.mp hi
    omega
  have hnone : b.accounts.lookup (natToString (100000 + b.accounts.length + 1)) = none :=
    lookup_eq_none_of_not_mem _ _ hfresh
  constructor
  · intro h
    unfold Bank.create_account
    rw [h]
  · intro h
    refine ⟨_, create_account_ok b cpf u h hnone, hfresh, ?_, ?_, ?_, ?_, ?_, ?_⟩
    · intro k hk
      rw [hcanon] at hk
      obtain ⟨i, hi, rfl⟩ := List.mem_map.mp hk
      rw [decStringToNat_natToString]
      have hilt : i < b.accounts.length := List.mem_range.mp hi
      omega
    · simp
    · rw [List.lookup_append, hnone]
      simp [List.lookup_cons]
    · unfold accountKeysCanonical
      simp only [List.map_append, List.length_append, List.map_cons, List.map_nil,
        List.length_cons, List.length_nil]
      rw [hcanon]
      rw [show b.accounts.length + (0 + 1) = b.accounts.length + 1 by omega]
      rw [List.range_succ, List.map_append]
      rfl
    · rw [lookup_map_addNumber, h]
      rfl
    · intro h0
      rw [show b.accounts.length = 0 by rw [h0]; rfl]
      decide

theorem create_account_spec_witness :
    ∃ b' : Bank,
      sampleBank.create_account "111" =
        .ok ({ number := "100001", owner_cpf := "111" }, b') := by
  obtain ⟨b', hok, -, -, -, -, -, -, hfr⟩ :=
    (create_account_spec sampleBank "111" sampleUser (by with_unfolding_all rfl)).2 (by decide)
  have h1 : natToString (100000 + sampleBank.accounts.length + 1) = "100001" := hfr rfl
  rw [h1] at hok
  exact ⟨b', hok⟩

/-! ## Persistence round trip -/

theorem loadTransaction_serializeTransaction (t : Transaction) :
    loadTransaction (serializeTransaction t) = t := by
  cases t with
  | mk kind amount timestamp note =>
    unfold loadTransaction serializeTransaction
    simp [fromisoformat_isoformat]

theorem loadAccount_serializeAccount (a : Account) :
    loadAccount (serializeAccount a) = a := by
  cases a with
  | mk number agency owner_cpf balance transactions dl pl =>
    unfold loadAccount serializeAccount
    simp only [Option.getD_some]
    rw [List.map_map]
    have hmap : transactions.map (loadTransaction ∘ serializeTransaction) = transactions :=
      (List.map_congr_left
        (fun t _ => loadTransaction_serializeTransaction t)).trans (List.map_id _)
    rw [hmap]

/-- C5: deserializing the document produced by serializing any bank state
reconstructs the state exactly — every user, every account, every
transaction (timestamps included, through the textual codec) and the
insertion order of all three collections. -/
theorem load_save_roundtrip (b : Bank) : Bank.load (Bank.save b) = b := by
  cases b with
  | mk us accs =>
    unfold Bank.load Bank.save
    simp only [Bank.mk.injEq]
    constructor
    · rw [List.map_map]
      exact (List.map_congr_left (fun p _ => rfl)).trans (List.map_id _)
    · rw [List.map_map]
      refine (List.map_congr_left ?_).trans (List.map_id _)
      intro p _
      show (p.1, loadAccount (serializeAccount p.2)) = p
      rw [loadAccount_serializeAccount]

end BankSys
